import Mathlib

/-!
# Verification of the mambo-whistle USB-audio frame decoder and playback regulator

Shallow embedding of `scripts/usb_audio/receiver.py` (`AudioFrameReceiver`) and
`scripts/usb_audio/play.py` (`AudioPlayer`).  Bytes are `Nat` values (well-formed
bytes are `< 256`); machine 16-bit arithmetic is modelled with explicit `% 65536`.
The serial transport is modelled as an `Option (List Nat)`: `none` means no serial
port is attached (`self.ser is None`), `some chunk` means a port is attached and
`chunk` is exactly the bytes it currently reports as waiting (`in_waiting`).
The fallible `np.frombuffer(..., dtype=np.int16)` call is modelled by an `Option`
returning function; a `ValueError` raised there surfaces as the `crash` outcome.
-/

namespace UsbAudio

/-- Frame format constant `FRAME_MAGIC = 0xAA55` (receiver.py line 14). -/
def FRAME_MAGIC : Nat := 0xAA55

/-- `FRAME_HEADER_SIZE = 6`: magic(2) + seq_num(2) + length(2) (receiver.py line 15). -/
def FRAME_HEADER_SIZE : Nat := 6

/-- `CHECKSUM_SIZE = 2` (receiver.py line 16). -/
def CHECKSUM_SIZE : Nat := 2

/-- The receiver's statistics dictionary (receiver.py lines 37-44).
`frames_dropped` is the spec's `frames_dropped_by_sequence_gap`. -/
structure Stats where
  frames_received : Nat
  frames_dropped : Nat
  checksum_errors : Nat
  sync_errors : Nat
  bytes_received : Nat
  last_seq : Option Nat
deriving Repr, DecidableEq

/-- Initial statistics of a fresh receiver. -/
def initStats : Stats := ⟨0, 0, 0, 0, 0, none⟩

/-- The decoder state: backlog buffer plus statistics (receiver.py lines 37-47). -/
structure AudioFrameReceiver where
  buffer : List Nat
  stats : Stats
deriving Repr, DecidableEq

/-- A freshly constructed receiver: empty buffer, zeroed statistics. -/
def initReceiver : AudioFrameReceiver := ⟨[], initStats⟩

/-- `struct.unpack('<H', ...)` on the first two bytes of a list:
little-endian 16-bit read.  Returns 0 when fewer than two bytes are present
(in the source every use site has already checked the length). -/
def unle16bytes : List Nat → Nat
  | a :: b :: _ => a + 256 * b
  | _ => 0

/-- `struct.pack('<H', n)`: little-endian 16-bit write of `n` (mod 2^16). -/
def le16 (n : Nat) : List Nat := [n % 256, n / 256 % 256]

/-- `_calculate_checksum` (receiver.py lines 120-122): `sum(data) & 0xFFFF`,
i.e. the byte sum reduced mod 2^16. -/
def calculate_checksum (data : List Nat) : Nat := data.sum % 65536

/-- `_find_sync` (receiver.py lines 110-118).  Pops bytes from the front of the
buffer, incrementing `sync_errors` per popped byte, until the two leading bytes
read as `FRAME_MAGIC` little-endian (returns `true` with the buffer as it then
stands) or fewer than two bytes remain (returns `false`).
Result: (found, remaining buffer, updated sync_errors). -/
def findSync : List Nat → Nat → Bool × List Nat × Nat
  | a :: b :: rest, errs =>
      if a + 256 * b = FRAME_MAGIC then (true, a :: b :: rest, errs)
      else findSync (b :: rest) (errs + 1)
  | buf, errs => (false, buf, errs)

/-- One little-endian int16 sample from two bytes (numpy `int16` view). -/
def toInt16 (lo hi : Nat) : Int :=
  let u := lo + 256 * hi
  if u < 32768 then (u : Int) else (u : Int) - 65536

/-- `np.frombuffer(data, dtype=np.int16)`: pairs of bytes become little-endian
signed 16-bit samples; an odd-length buffer makes numpy raise `ValueError`,
modelled as `none`. -/
def bytesToInt16 : List Nat → Option (List Int)
  | [] => some []
  | lo :: hi :: rest => (bytesToInt16 rest).map (fun s => toInt16 lo hi :: s)
  | [_] => none

/-- Serialisation of int16 samples back to little-endian bytes (used to state
byte-identity of the round trip). -/
def int16sToBytes : List Int → List Nat
  | [] => []
  | x :: xs => le16 (x % 65536).toNat ++ int16sToBytes xs

/-- Result of one `receive_frame` call: a decoded frame, `None`, or an
uncaught Python exception (`crash`). -/
inductive RecvOutcome where
  | frame (samples : List Int)
  | noFrame
  | crash
deriving Repr, DecidableEq

/-- Sequence-continuity bookkeeping of `receive_frame` (receiver.py lines
175-183): gap counting against `(last_seq + 1) & 0xFFFF`, then the
unconditional `last_seq`/`frames_received` update.  Python's
`(seq_num - expected_seq) & 0xFFFF` on possibly-negative ints is the
mathematical residue, i.e. `Int.emod`. -/
def seqUpdate (s : Stats) (seq_num : Nat) : Stats :=
  let s' :=
    match s.last_seq with
    | some ls =>
        let expected := (ls + 1) % 65536
        if seq_num ≠ expected then
          { s with frames_dropped :=
              s.frames_dropped + (((seq_num : Int) - (expected : Int)) % 65536).toNat }
        else s
    | none => s
  { s' with last_seq := some seq_num, frames_received := s'.frames_received + 1 }

/-- The parsing part of `receive_frame` after `_find_sync` returned `True`
(receiver.py lines 150-189): header wait, payload wait, extraction, checksum
verify, sequence bookkeeping, int16 view of the payload. -/
def parseFrame (r : AudioFrameReceiver) : RecvOutcome × AudioFrameReceiver :=
  if r.buffer.length < FRAME_HEADER_SIZE then (.noFrame, r)
  else
    let seq_num := unle16bytes (r.buffer.drop 2)
    let length := unle16bytes (r.buffer.drop 4)
    let frame_size := FRAME_HEADER_SIZE + length + CHECKSUM_SIZE
    if r.buffer.length < frame_size then (.noFrame, r)
    else
      let frame_data := r.buffer.take frame_size
      let rest := r.buffer.drop frame_size
      let received_checksum := unle16bytes (frame_data.drop (frame_size - CHECKSUM_SIZE))
      let calculated_checksum := calculate_checksum (frame_data.take (frame_size - CHECKSUM_SIZE))
      if received_checksum ≠ calculated_checksum then
        (.noFrame, ⟨rest, { r.stats with checksum_errors := r.stats.checksum_errors + 1 }⟩)
      else
        let stats' := seqUpdate r.stats seq_num
        let audio_data := (frame_data.take (frame_size - CHECKSUM_SIZE)).drop FRAME_HEADER_SIZE
        match bytesToInt16 audio_data with
        | some samples => (.frame samples, ⟨rest, stats'⟩)
        | none => (.crash, ⟨rest, stats'⟩)

/-- `receive_frame` minus the serial-read preamble (receiver.py lines 146-189):
sync search then parse. -/
def receiveCore (r : AudioFrameReceiver) : RecvOutcome × AudioFrameReceiver :=
  match findSync r.buffer r.stats.sync_errors with
  | (true, buf, errs) => parseFrame ⟨buf, { r.stats with sync_errors := errs }⟩
  | (false, buf, errs) => (.noFrame, ⟨buf, { r.stats with sync_errors := errs }⟩)

/-- `receive_frame` (receiver.py lines 124-189).  `incoming = none` models
`self.ser is None`; `incoming = some chunk` models an attached port whose
`in_waiting` bytes are exactly `chunk`.  With an attached port and no waiting
bytes the source returns `None` immediately (lines 142-144) without touching
the backlog. -/
def receive_frame (r : AudioFrameReceiver) (incoming : Option (List Nat)) :
    RecvOutcome × AudioFrameReceiver :=
  match incoming with
  | some chunk =>
      if 0 < chunk.length then
        receiveCore ⟨r.buffer ++ chunk,
          { r.stats with bytes_received := r.stats.bytes_received + chunk.length }⟩
      else (.noFrame, r)
  | none => receiveCore r

/-- `flush_backlog` (receiver.py lines 101-108): clears the backlog buffer;
the serial-side `reset_input_buffer` is external I/O with no decoder state. -/
def flush_backlog (r : AudioFrameReceiver) : AudioFrameReceiver :=
  { r with buffer := [] }

/-- Modelled from the spec: the sender-side wire frame layout of §6
(little-endian magic `0xAA55`, seq, length, payload, 16-bit wraparound-sum
checksum of all preceding bytes).  The encoder itself lives in the ESP32
firmware, outside this repository. -/
def encodeFrame (seq : Nat) (payload : List Nat) : List Nat :=
  let body := le16 FRAME_MAGIC ++ le16 seq ++ le16 payload.length ++ payload
  body ++ le16 (calculate_checksum body)

/-- Result of querying the sink's `get_write_available()`: a reported frame
count, or a raised exception. -/
inductive SinkQuery where
  | reports (n : Nat)
  | fails
deriving Repr, DecidableEq

/-- Result of the sink's `stream.write(...)` call: success, or a raised
exception. -/
inductive WriteAttempt where
  | ok
  | err
deriving Repr, DecidableEq

/-- `AudioPlayer` state (play.py lines 27-35); `hasStream` models whether
`self.stream` is set.  `frames_dropped` is the spec's
`frames_dropped_by_playback`. -/
structure AudioPlayer where
  sample_rate : Nat
  max_buffer_frames : Nat
  frames_dropped : Nat
  hasStream : Bool
deriving Repr, DecidableEq

/-- `AudioPlayer.play` (play.py lines 69-97).  `numSamples` is
`len(audio_data)`, `avail` the outcome of `get_write_available()`, `w` the
outcome of the `stream.write` call if reached.
Returns (played?, write invoked?, new state). -/
def play (p : AudioPlayer) (numSamples : Nat) (drop_if_buffer_full : Bool)
    (avail : SinkQuery) (w : WriteAttempt) : Bool × Bool × AudioPlayer :=
  if ¬ p.hasStream then (false, false, p)
  else
    let dropNow : Bool :=
      drop_if_buffer_full &&
        (match avail with
         | .reports a => decide (a < numSamples * 2)
         | .fails => false)
    if dropNow then (false, false, { p with frames_dropped := p.frames_dropped + 1 })
    else
      match w with
      | .ok => (true, true, p)
      | .err => (false, true, { p with frames_dropped := p.frames_dropped + 1 })

/-- `AudioPlayer.get_buffer_latency_ms` (play.py lines 53-67): queued count is
`max(0, 240 - available)` against the hardcoded `estimated_total = 60 * 4`,
converted to milliseconds; any exception from the capacity query yields `0.0`.
Real (float) arithmetic is modelled over `ℚ`. -/
def get_buffer_latency_ms (p : AudioPlayer) (avail : SinkQuery) : ℚ :=
  if ¬ p.hasStream then 0
  else
    match avail with
    | .reports a =>
        let estimated_total : Int := 60 * 4
        let queued : Int := max 0 (estimated_total - (a : Int))
        (queued * 1000 : ℚ) / (p.sample_rate : ℚ)
    | .fails => 0

/-- `noise` contains no two consecutive bytes reading as the little-endian
magic word (so the sync search cannot lock onto the noise). -/
def magicFree : List Nat → Bool
  | a :: b :: rest => !(a + 256 * b == FRAME_MAGIC) && magicFree (b :: rest)
  | _ => true

/-- The checksum of the header-plus-payload bytes of an encoded frame. -/
def frameChecksum (seq : Nat) (payload : List Nat) : Nat :=
  calculate_checksum (85 :: 170 :: seq % 256 :: seq / 256 % 256 ::
    payload.length % 256 :: payload.length / 256 % 256 :: payload)

theorem encodeFrame_eq (seq : Nat) (payload : List Nat) :
    encodeFrame seq payload =
      85 :: 170 :: seq % 256 :: seq / 256 % 256 ::
        payload.length % 256 :: payload.length / 256 % 256 ::
        (payload ++ [frameChecksum seq payload % 256, frameChecksum seq payload / 256 % 256]) := by
  simp [encodeFrame, le16, frameChecksum, FRAME_MAGIC, calculate_checksum]

theorem unle16_le16 {n : Nat} (h : n < 65536) : n % 256 + 256 * (n / 256 % 256) = n := by
  omega

theorem findSync_magic (rest : List Nat) (e : Nat) :
    findSync (85 :: 170 :: rest) e = (true, 85 :: 170 :: rest, e) := by
  simp [findSync, FRAME_MAGIC]

theorem findSync_step {a b : Nat} (rest : List Nat) (e : Nat)
    (h : ¬ a + 256 * b = FRAME_MAGIC) :
    findSync (a :: b :: rest) e = findSync (b :: rest) (e + 1) := by
  rw [show findSync (a :: b :: rest) e =
        (if a + 256 * b = FRAME_MAGIC then (true, a :: b :: rest, e)
         else findSync (b :: rest) (e + 1)) from rfl,
      if_neg h]

theorem findSync_skip (noise : List Nat) (rest : List Nat) (e : Nat)
    (hb : ∀ x ∈ noise, x < 256) (hm : magicFree noise = true) :
    findSync (noise ++ 85 :: 170 :: rest) e = (true, 85 :: 170 :: rest, e + noise.length) := by
  induction noise generalizing e with
  | nil => simpa using findSync_magic rest e
  | cons a tail ih =>
    have ha : a < 256 := hb a (by simp)
    cases tail with
    | nil =>
      have hne : ¬ (a + 256 * 85 = FRAME_MAGIC) := by
        simp only [FRAME_MAGIC]; omega
      rw [List.cons_append, List.nil_append, findSync_step _ _ hne, findSync_magic]
      simp
    | cons b tail' =>
      have hpair : ¬ (a + 256 * b = FRAME_MAGIC) := by
        have h := hm
        simp only [magicFree, Bool.and_eq_true, Bool.not_eq_true', beq_eq_false_iff_ne] at h
        exact h.1
      have hm' : magicFree (b :: tail') = true := by
        have h := hm
        simp only [magicFree, Bool.and_eq_true] at h
        exact h.2
      have hb' : ∀ x ∈ b :: tail', x < 256 := fun x hx => hb x (List.mem_cons_of_mem a hx)
      have step := ih hb' hm' (e := e + 1)
      simp only [List.cons_append] at step ⊢
      rw [findSync_step _ _ hpair, step]
      have : e + 1 + (b :: tail').length = e + (a :: b :: tail').length := by
        simp only [List.length_cons]; omega
      rw [this]

theorem receiveCore_magic (s : Stats) (rest : List Nat) :
    receiveCore ⟨85 :: 170 :: rest, s⟩ = parseFrame ⟨85 :: 170 :: rest, s⟩ := by
  simp [receiveCore, findSync_magic]

theorem parseFrame_short (r : AudioFrameReceiver) (h : r.buffer.length < 6) :
    parseFrame r = (.noFrame, r) := by
  simp only [parseFrame, FRAME_HEADER_SIZE]
  rw [if_pos h]

theorem parseFrame_wait (s : Stats) (s0 s1 l0 l1 : Nat) (tail : List Nat)
    (h : tail.length < l0 + 256 * l1 + 2) :
    parseFrame ⟨85 :: 170 :: s0 :: s1 :: l0 :: l1 :: tail, s⟩ =
      (.noFrame, ⟨85 :: 170 :: s0 :: s1 :: l0 :: l1 :: tail, s⟩) := by
  simp only [parseFrame]
  split
  · rfl
  · split
    · rfl
    · rename_i h6 hsz
      exfalso
      rw [show List.drop 4 (85 :: 170 :: s0 :: s1 :: l0 :: l1 :: tail) = l0 :: l1 :: tail
            from rfl,
          show unle16bytes (l0 :: l1 :: tail) = l0 + 256 * l1 from rfl] at hsz
      simp only [List.length_cons, FRAME_HEADER_SIZE, CHECKSUM_SIZE] at hsz
      omega

theorem parseFrame_full (s : Stats) (s0 s1 l0 l1 c0 c1 : Nat) (mid : List Nat)
    (hl : l0 + 256 * l1 = mid.length) :
    parseFrame ⟨85 :: 170 :: s0 :: s1 :: l0 :: l1 :: (mid ++ [c0, c1]), s⟩ =
      if c0 + 256 * c1 ≠ calculate_checksum (85 :: 170 :: s0 :: s1 :: l0 :: l1 :: mid) then
        (.noFrame, ⟨[], { s with checksum_errors := s.checksum_errors + 1 }⟩)
      else
        match bytesToInt16 mid with
        | some samples => (.frame samples, ⟨[], seqUpdate s (s0 + 256 * s1)⟩)
        | none => (.crash, ⟨[], seqUpdate s (s0 + 256 * s1)⟩) := by
  have hfrontlen : (85 :: 170 :: s0 :: s1 :: l0 :: l1 :: mid).length = mid.length + 6 := by
    simp only [List.length_cons]
  have hBlen : (85 :: 170 :: s0 :: s1 :: l0 :: l1 :: (mid ++ [c0, c1])).length
      = mid.length + 8 := by
    simp only [List.length_cons, List.length_append, List.length_cons, List.length_nil]
  have hBlen' : ((85 : Nat) :: 170 :: s0 :: s1 :: l0 :: l1 :: mid ++ [c0, c1]).length
      = mid.length + 8 := by
    rw [List.length_append, hfrontlen]; rfl
  simp only [parseFrame, FRAME_HEADER_SIZE, CHECKSUM_SIZE]
  rw [show List.drop 4 (85 :: 170 :: s0 :: s1 :: l0 :: l1 :: (mid ++ [c0, c1]))
        = l0 :: l1 :: (mid ++ [c0, c1]) from rfl,
      show unle16bytes (l0 :: l1 :: (mid ++ [c0, c1])) = l0 + 256 * l1 from rfl,
      show List.drop 2 (85 :: 170 :: s0 :: s1 :: l0 :: l1 :: (mid ++ [c0, c1]))
        = s0 :: s1 :: l0 :: l1 :: (mid ++ [c0, c1]) from rfl,
      show unle16bytes (s0 :: s1 :: l0 :: l1 :: (mid ++ [c0, c1])) = s0 + 256 * s1 from rfl,
      hBlen]
  rw [if_neg (show ¬ (mid.length + 8 < 6) from by omega),
      if_neg (show ¬ (mid.length + 8 < 6 + (l0 + 256 * l1) + 2) from by omega)]
  rw [show (6 : Nat) + (l0 + 256 * l1) + 2 = mid.length + 8 from by omega]
  rw [show (85 : Nat) :: 170 :: s0 :: s1 :: l0 :: l1 :: (mid ++ [c0, c1])
        = (85 :: 170 :: s0 :: s1 :: l0 :: l1 :: mid) ++ [c0, c1] from rfl]
  rw [show mid.length + 8 - 2 = mid.length + 6 from by omega]
  rw [List.take_of_length_le (le_of_eq hBlen'),
      List.drop_eq_nil_of_le (le_of_eq hBlen')]
  rw [List.drop_left' hfrontlen, List.take_left' hfrontlen]
  rw [show unle16bytes [c0, c1] = c0 + 256 * c1 from rfl]
  rw [show List.drop 6 (85 :: 170 :: s0 :: s1 :: l0 :: l1 :: mid) = mid from rfl]

theorem toInt16_emod_toNat (lo hi : Nat) (hlo : lo < 256) (hhi : hi < 256) :
    ((toInt16 lo hi) % 65536).toNat = lo + 256 * hi := by
  simp only [toInt16]
  split <;> omega

theorem bytesToInt16_total : ∀ (l : List Nat), l.length % 2 = 0 →
    ∃ smp, bytesToInt16 l = some smp
  | [], _ => ⟨[], rfl⟩
  | [_], h => by simp at h
  | lo :: hi :: rest, h => by
      obtain ⟨smp, hsmp⟩ := bytesToInt16_total rest (by
        simp only [List.length_cons] at h; omega)
      exact ⟨toInt16 lo hi :: smp, by simp [bytesToInt16, hsmp]⟩

theorem int16sToBytes_bytesToInt16 : ∀ (l : List Nat), (∀ b ∈ l, b < 256) →
    ∀ smp, bytesToInt16 l = some smp → int16sToBytes smp = l
  | [], _, smp, h => by
      simp only [bytesToInt16, Option.some.injEq] at h
      simp [← h, int16sToBytes]
  | [_], _, smp, h => by simp [bytesToInt16] at h
  | lo :: hi :: rest, hb, smp, h => by
      simp only [bytesToInt16, Option.map_eq_some'] at h
      obtain ⟨smp', hrest, rfl⟩ := h
      have ih := int16sToBytes_bytesToInt16 rest
        (fun b hbm => hb b (List.mem_cons_of_mem _ (List.mem_cons_of_mem _ hbm))) smp' hrest
      have hlo : lo < 256 := hb lo (by simp)
      have hhi : hi < 256 := hb hi (by simp)
      simp only [int16sToBytes, ih]
      rw [toInt16_emod_toNat lo hi hlo hhi]
      have h1 : (lo + 256 * hi) % 256 = lo := by omega
      have h2 : (lo + 256 * hi) / 256 % 256 = hi := by omega
      simp [le16, h1, h2]

theorem frameChecksum_lt (seq : Nat) (payload : List Nat) :
    frameChecksum seq payload < 65536 := by
  unfold frameChecksum calculate_checksum
  omega

theorem receiveCore_encode (s : Stats) (seq : Nat) (payload : List Nat)
    (hs : seq < 65536) (hlen : payload.length < 65536) :
    receiveCore ⟨encodeFrame seq payload, s⟩ =
      match bytesToInt16 payload with
      | some smp => (.frame smp, ⟨[], seqUpdate s seq⟩)
      | none => (.crash, ⟨[], seqUpdate s seq⟩) := by
  rw [encodeFrame_eq, receiveCore_magic,
      parseFrame_full s _ _ _ _ _ _ payload (unle16_le16 hlen)]
  rw [if_neg (not_ne_iff.mpr ((unle16_le16 (frameChecksum_lt seq payload)).trans
    (show frameChecksum seq payload = calculate_checksum (85 :: 170 :: seq % 256 ::
      seq / 256 % 256 :: payload.length % 256 :: payload.length / 256 % 256 :: payload)
      from rfl)))]
  rw [unle16_le16 hs]

theorem encodeFrame_length (seq : Nat) (payload : List Nat) :
    (encodeFrame seq payload).length = payload.length + 8 := by
  rw [encodeFrame_eq]
  simp only [List.length_cons, List.length_append, List.length_cons, List.length_nil]

/-- C1: encoding any even-length payload (bytes, length and sequence number in
16-bit range) as a wire frame and feeding those exact bytes to a fresh decoder
returns exactly that payload, byte-identical, as int16 samples. -/
theorem C1_framing_roundtrip (seq : Nat) (payload : List Nat)
    (hs : seq < 65536) (hlen : payload.length < 65536)
    (heven : payload.length % 2 = 0) (hbytes : ∀ b ∈ payload, b < 256) :
    ∃ samples, bytesToInt16 payload = some samples ∧
      (receive_frame initReceiver (some (encodeFrame seq payload))).1
        = RecvOutcome.frame samples ∧
      int16sToBytes samples = payload := by
  obtain ⟨samples, hsmp⟩ := bytesToInt16_total payload heven
  refine ⟨samples, hsmp, ?_, int16sToBytes_bytesToInt16 payload hbytes samples hsmp⟩
  have hpos : 0 < (encodeFrame seq payload).length := by
    rw [encodeFrame_length]; omega
  show (receive_frame ⟨[], initStats⟩ (some (encodeFrame seq payload))).1
    = RecvOutcome.frame samples
  rw [show receive_frame ⟨[], initStats⟩ (some (encodeFrame seq payload)) =
        receiveCore ⟨[] ++ encodeFrame seq payload,
          { initStats with bytes_received :=
              initStats.bytes_received + (encodeFrame seq payload).length }⟩ from by
    simp only [receive_frame]
    rw [if_pos hpos]]
  rw [List.nil_append, receiveCore_encode _ _ _ hs hlen, hsmp]

/-- Closed witness for C1 at seq 0, payload `[1, 2]`. -/
theorem C1_witness :
    ∃ samples, bytesToInt16 [1, 2] = some samples ∧
      (receive_frame initReceiver (some (encodeFrame 0 [1, 2]))).1
        = RecvOutcome.frame samples ∧
      int16sToBytes samples = [1, 2] :=
  C1_framing_roundtrip 0 [1, 2] (by decide) (by decide) (by decide) (by decide)

/-- C2 (code-bug evidence): with a complete valid frame already in the backlog
but a serial port attached that reports no waiting bytes, `receive_frame`
returns `None` without touching the backlog (receiver.py lines 142-144), even
though the very same state yields the frame when extraction is reached — so a
call does not return `None` only when no complete valid frame is buffered. -/
theorem C2_buffered_frame_not_extracted :
    (receive_frame ⟨encodeFrame 0 [1, 2], initStats⟩ (some []))
      = (RecvOutcome.noFrame, ⟨encodeFrame 0 [1, 2], initStats⟩) ∧
    (receive_frame ⟨encodeFrame 0 [1, 2], initStats⟩ none).1
      = RecvOutcome.frame [513] := by
  constructor <;> rfl

/-- C3 (code-bug evidence): a frame with an odd length field that passes the
checksum check reaches `np.frombuffer`, which raises `ValueError` — the call
crashes instead of returning `None` with `checksum_errors` incremented. -/
theorem C3_odd_length_crash :
    (receive_frame initReceiver (some [85, 170, 0, 0, 1, 0, 0, 0, 1])).1
      = RecvOutcome.crash ∧
    (receive_frame initReceiver (some [85, 170, 0, 0, 1, 0, 0, 0, 1])).2.stats.checksum_errors
      = 0 := by
  constructor <;> rfl

/-- C8: when the sink reports available write capacity less than twice the
payload's sample count, `play` returns dropped (`False`) without invoking the
sink's write, and increments `frames_dropped` by one. -/
theorem C8_saturation_drop (p : AudioPlayer) (numSamples avail : Nat) (w : WriteAttempt)
    (hstream : p.hasStream = true) (hsat : avail < numSamples * 2) :
    play p numSamples true (SinkQuery.reports avail) w =
      (false, false, { p with frames_dropped := p.frames_dropped + 1 }) := by
  simp [play, hstream, hsat]

/-- Closed witness for C8: 4 samples, 7 frames of reported capacity. -/
theorem C8_witness :
    play ⟨48000, 240, 0, true⟩ 4 true (SinkQuery.reports 7) WriteAttempt.ok =
      (false, false, ⟨48000, 240, 1, true⟩) :=
  C8_saturation_drop ⟨48000, 240, 0, true⟩ 4 7 WriteAttempt.ok rfl (by decide)

/-- C9: `flush_backlog` discards all buffered bytes, changes no statistics
(including `last_seq`), and a subsequent extraction call on the flushed state
returns nothing, whatever the previously buffered partial data was. -/
theorem C9_flush_backlog (r : AudioFrameReceiver) :
    (flush_backlog r).buffer = [] ∧ (flush_backlog r).stats = r.stats ∧
    receive_frame (flush_backlog r) none = (RecvOutcome.noFrame, flush_backlog r) :=
  ⟨rfl, rfl, rfl⟩

/-- C10: the queued-latency estimate is non-negative and never exceeds
`240 * 1000 / sample_rate` milliseconds, for every reported capacity and also
when the capacity query fails. -/
theorem C10_latency_bounds (p : AudioPlayer) (avail : SinkQuery) :
    0 ≤ get_buffer_latency_ms p avail ∧
    get_buffer_latency_ms p avail ≤ (240 * 1000 : ℚ) / (p.sample_rate : ℚ) := by
  have hb : (0 : ℚ) ≤ (240 * 1000 : ℚ) / (p.sample_rate : ℚ) := by positivity
  unfold get_buffer_latency_ms
  split
  · exact ⟨le_refl 0, hb⟩
  · cases avail with
    | fails => exact ⟨le_refl 0, hb⟩
    | reports a =>
      have hq0 : (0 : Int) ≤ max 0 (60 * 4 - (a : Int)) := le_max_left 0 _
      have hq240 : max 0 (60 * 4 - (a : Int)) ≤ 240 := by omega
      have hcast0 : (0 : ℚ) ≤ ((max 0 (60 * 4 - (a : Int)) : Int) : ℚ) := by
        exact_mod_cast hq0
      constructor
      · exact div_nonneg (by nlinarith) (by positivity)
      · rcases Nat.eq_zero_or_pos p.sample_rate with h0 | hpos
        · rw [h0]
          norm_num
        · have hrate : (0 : ℚ) < (p.sample_rate : ℚ) := by exact_mod_cast hpos
          refine (div_le_div_iff_of_pos_right hrate).mpr ?_
          have : ((max 0 (60 * 4 - (a : Int)) : Int) : ℚ) ≤ 240 := by exact_mod_cast hq240
          nlinarith

theorem receive_frame_fresh (s : Stats) (chunk : List Nat) (h : 0 < chunk.length) :
    receive_frame ⟨[], s⟩ (some chunk) =
      receiveCore ⟨chunk, { s with bytes_received := s.bytes_received + chunk.length }⟩ := by
  simp only [receive_frame]
  rw [if_pos h, List.nil_append]

/-- C6: when a checksum-valid frame is accepted while `last_seq` is set and its
seq differs from the expected successor `(last_seq + 1) mod 65536`, the gap
counter grows by `(seq - expected) mod 65536` and `last_seq` becomes seq. -/
theorem C6_sequence_gap (s : Stats) (ls seq : Nat) (payload : List Nat)
    (hlast : s.last_seq = some ls)
    (hs : seq < 65536) (hlen : payload.length < 65536)
    (hne : seq ≠ (ls + 1) % 65536) :
    (receive_frame ⟨[], s⟩ (some (encodeFrame seq payload))).2.stats.frames_dropped
      = s.frames_dropped
        + (((seq : Int) - (((ls + 1) % 65536 : Nat) : Int)) % 65536).toNat ∧
    (receive_frame ⟨[], s⟩ (some (encodeFrame seq payload))).2.stats.last_seq
      = some seq := by
  rw [receive_frame_fresh s _ (by rw [encodeFrame_length]; omega),
      receiveCore_encode _ _ _ hs hlen]
  cases hb : bytesToInt16 payload with
  | some smp =>
    simp only [hb, seqUpdate, hlast]
    rw [if_pos hne]
    exact ⟨rfl, trivial⟩
  | none =>
    simp only [hb, seqUpdate, hlast]
    rw [if_pos hne]
    exact ⟨rfl, trivial⟩

/-- Closed witness for C6: frames with seq 5 accepted earlier, then seq 9:
the gap counter grows by exactly 3 and `last_seq` becomes 9. -/
theorem C6_witness :
    (receive_frame ⟨[], ⟨1, 0, 0, 0, 10, some 5⟩⟩
      (some (encodeFrame 9 [1, 2]))).2.stats.frames_dropped = 0 + 3 ∧
    (receive_frame ⟨[], ⟨1, 0, 0, 0, 10, some 5⟩⟩
      (some (encodeFrame 9 [1, 2]))).2.stats.last_seq = some 9 := by
  have h := C6_sequence_gap ⟨1, 0, 0, 0, 10, some 5⟩ 5 9 [1, 2]
    rfl (by decide) (by decide) (by decide)
  exact ⟨by rw [h.1]; decide, h.2⟩

theorem seqUpdate_sync_errors (t : Stats) (n : Nat) :
    (seqUpdate t n).sync_errors = t.sync_errors := by
  unfold seqUpdate
  cases t.last_seq with
  | none => rfl
  | some ls =>
    dsimp only
    split <;> rfl

theorem parseFrame_encode (s : Stats) (seq : Nat) (payload : List Nat)
    (hs : seq < 65536) (hlen : payload.length < 65536) :
    parseFrame ⟨encodeFrame seq payload, s⟩ =
      match bytesToInt16 payload with
      | some smp => (.frame smp, ⟨[], seqUpdate s seq⟩)
      | none => (.crash, ⟨[], seqUpdate s seq⟩) := by
  rw [encodeFrame_eq, parseFrame_full s _ _ _ _ _ _ payload (unle16_le16 hlen)]
  rw [if_neg (not_ne_iff.mpr ((unle16_le16 (frameChecksum_lt seq payload)).trans
    (show frameChecksum seq payload = calculate_checksum (85 :: 170 :: seq % 256 ::
      seq / 256 % 256 :: payload.length % 256 :: payload.length / 256 % 256 :: payload)
      from rfl)))]
  rw [unle16_le16 hs]

/-- C5 (counterexample): the noise `[85,170,0,0,0,0]` contains the magic word
but no valid-checksum frame, so the claim's side condition ("no coincidental
magic-plus-valid-checksum match") holds; yet prepending it to a valid frame
makes extraction return nothing with `sync_errors` still 0 (the claim says the
frame comes back with `sync_errors` incremented by 6): the decoder locks onto
the noise, consumes the real frame's first two bytes as the fake frame's
checksum, and reports a checksum error instead. -/
theorem C5_counterexample :
    (receive_frame initReceiver
        (some ([85, 170, 0, 0, 0, 0] ++ encodeFrame 0 [1, 2]))).1
      = RecvOutcome.noFrame ∧
    (receive_frame initReceiver
        (some ([85, 170, 0, 0, 0, 0] ++ encodeFrame 0 [1, 2]))).2.stats.sync_errors = 0 ∧
    (receive_frame initReceiver
        (some ([85, 170, 0, 0, 0, 0] ++ encodeFrame 0 [1, 2]))).2.stats.checksum_errors = 1 :=
  ⟨rfl, rfl, rfl⟩

/-- C5 (amended): prepending noise that contains no two consecutive bytes
reading as the magic word before a valid frame still yields that frame, with
`sync_errors` incremented by exactly the noise length. -/
theorem C5_resync (s : Stats) (noise : List Nat) (seq : Nat) (payload : List Nat)
    (hnb : ∀ x ∈ noise, x < 256) (hm : magicFree noise = true)
    (hs : seq < 65536) (hlen : payload.length < 65536)
    (heven : payload.length % 2 = 0) :
    ∃ samples, bytesToInt16 payload = some samples ∧
      (receive_frame ⟨[], s⟩ (some (noise ++ encodeFrame seq payload))).1
        = RecvOutcome.frame samples ∧
      (receive_frame ⟨[], s⟩ (some (noise ++ encodeFrame seq payload))).2.stats.sync_errors
        = s.sync_errors + noise.length := by
  obtain ⟨samples, hsmp⟩ := bytesToInt16_total payload heven
  have hpos : 0 < (noise ++ encodeFrame seq payload).length := by
    rw [List.length_append, encodeFrame_length]; omega
  have hrun : receive_frame ⟨[], s⟩ (some (noise ++ encodeFrame seq payload))
      = (RecvOutcome.frame samples,
         ⟨[], seqUpdate
            ⟨s.frames_received, s.frames_dropped, s.checksum_errors,
             s.sync_errors + noise.length,
             s.bytes_received + (noise ++ encodeFrame seq payload).length,
             s.last_seq⟩ seq⟩) := by
    rw [receive_frame_fresh s _ hpos]
    show receiveCore _ = _
    simp only [receiveCore]
    rw [show (noise ++ encodeFrame seq payload : List Nat)
          = noise ++ (85 :: 170 :: seq % 256 :: seq / 256 % 256 ::
              payload.length % 256 :: payload.length / 256 % 256 ::
              (payload ++ [frameChecksum seq payload % 256,
                           frameChecksum seq payload / 256 % 256]))
        from by rw [← encodeFrame_eq]]
    rw [findSync_skip noise _ _ hnb hm]
    show parseFrame _ = _
    rw [show (85 :: 170 :: seq % 256 :: seq / 256 % 256 ::
              payload.length % 256 :: payload.length / 256 % 256 ::
              (payload ++ [frameChecksum seq payload % 256,
                           frameChecksum seq payload / 256 % 256]) : List Nat)
          = encodeFrame seq payload from (encodeFrame_eq seq payload).symm]
    rw [parseFrame_encode _ _ _ hs hlen, hsmp]
  rw [hrun, seqUpdate_sync_errors]
  exact ⟨samples, hsmp, rfl, rfl⟩

/-- Closed witness for C5: noise `[1, 2, 3]` before the frame for seq 0,
payload `[1, 2]`. -/
theorem C5_witness :
    ∃ samples, bytesToInt16 [1, 2] = some samples ∧
      (receive_frame ⟨[], initStats⟩ (some ([1, 2, 3] ++ encodeFrame 0 [1, 2]))).1
        = RecvOutcome.frame samples ∧
      (receive_frame ⟨[], initStats⟩
          (some ([1, 2, 3] ++ encodeFrame 0 [1, 2]))).2.stats.sync_errors
        = initStats.sync_errors + [1, 2, 3].length :=
  C5_resync initStats [1, 2, 3] 0 [1, 2] (by decide) (by decide) (by decide)
    (by decide) (by decide)

theorem take_add_two_cons (a b : Nat) (l : List Nat) (m : Nat) :
    List.take (m + 2) (a :: b :: l) = a :: b :: List.take m l := rfl

theorem take_add_four_cons (a b c d : Nat) (l : List Nat) (m : Nat) :
    List.take (m + 4) (a :: b :: c :: d :: l) = a :: b :: c :: d :: List.take m l := rfl

theorem receive_frame_some (r : AudioFrameReceiver) (chunk : List Nat)
    (h : 0 < chunk.length) :
    receive_frame r (some chunk) =
      receiveCore ⟨r.buffer ++ chunk,
        { r.stats with bytes_received := r.stats.bytes_received + chunk.length }⟩ := by
  simp only [receive_frame]
  rw [if_pos h]

theorem receiveCore_incomplete (s : Stats) (seq : Nat) (payload : List Nat) (i : Nat)
    (hlen : payload.length < 65536) (hi : i < (encodeFrame seq payload).length) :
    receiveCore ⟨(encodeFrame seq payload).take i, s⟩
      = (.noFrame, ⟨(encodeFrame seq payload).take i, s⟩) := by
  have hFlen := encodeFrame_length seq payload
  have hi' : i < payload.length + 8 := by omega
  rw [encodeFrame_eq]
  cases i with
  | zero => rfl
  | succ i1 =>
    cases i1 with
    | zero => rfl
    | succ m =>
      rw [show m + 1 + 1 = m + 2 from rfl, take_add_two_cons, receiveCore_magic]
      rcases Nat.lt_or_ge (m + 2) 6 with h6 | h6
      · refine parseFrame_short _ ?_
        simp only [List.length_cons, List.length_take, List.length_append, List.length_nil]
        omega
      · obtain ⟨n, rfl⟩ : ∃ n, m = n + 4 := ⟨m - 4, by omega⟩
        rw [take_add_four_cons]
        refine parseFrame_wait s _ _ _ _ _ ?_
        have hu := unle16_le16 hlen
        simp only [List.length_take, List.length_append, List.length_cons, List.length_nil]
        omega

/-- C7: delivering one valid frame's bytes split across two ingest calls at any
interior split point produces no frame after the first call — the partial bytes
are retained, not consumed — and exactly one correct frame after the second
call, which empties the backlog. -/
theorem C7_split_delivery (seq : Nat) (payload : List Nat) (i : Nat)
    (hs : seq < 65536) (hlen : payload.length < 65536)
    (heven : payload.length % 2 = 0)
    (hi0 : 0 < i) (hi : i < (encodeFrame seq payload).length) :
    (receive_frame initReceiver (some ((encodeFrame seq payload).take i))).1
      = RecvOutcome.noFrame ∧
    (receive_frame initReceiver (some ((encodeFrame seq payload).take i))).2.buffer
      = (encodeFrame seq payload).take i ∧
    ∃ samples, bytesToInt16 payload = some samples ∧
      (receive_frame (receive_frame initReceiver
          (some ((encodeFrame seq payload).take i))).2
          (some ((encodeFrame seq payload).drop i))).1 = RecvOutcome.frame samples ∧
      (receive_frame (receive_frame initReceiver
          (some ((encodeFrame seq payload).take i))).2
          (some ((encodeFrame seq payload).drop i))).2.buffer = [] := by
  obtain ⟨samples, hsmp⟩ := bytesToInt16_total payload heven
  have hFlen := encodeFrame_length seq payload
  have htakelen : ((encodeFrame seq payload).take i).length = i := by
    rw [List.length_take]; omega
  have h1 : receive_frame initReceiver (some ((encodeFrame seq payload).take i))
      = (RecvOutcome.noFrame, ⟨(encodeFrame seq payload).take i,
          { initStats with bytes_received :=
              initStats.bytes_received + ((encodeFrame seq payload).take i).length }⟩) := by
    show receive_frame ⟨[], initStats⟩ _ = _
    rw [receive_frame_fresh initStats _ (by omega)]
    rw [receiveCore_incomplete _ seq payload i hlen hi]
  rw [h1]
  refine ⟨rfl, rfl, samples, hsmp, ?_, ?_⟩ <;>
  · rw [receive_frame_some _ _ (by rw [List.length_drop]; omega)]
    dsimp only
    rw [List.take_append_drop, receiveCore_encode _ _ _ hs hlen, hsmp]

/-- Closed witness for C7: the frame for seq 0, payload `[1, 2]` split after
its first 7 bytes. -/
theorem C7_witness :
    (receive_frame initReceiver (some ((encodeFrame 0 [1, 2]).take 7))).1
      = RecvOutcome.noFrame ∧
    (receive_frame initReceiver (some ((encodeFrame 0 [1, 2]).take 7))).2.buffer
      = (encodeFrame 0 [1, 2]).take 7 ∧
    ∃ samples, bytesToInt16 [1, 2] = some samples ∧
      (receive_frame (receive_frame initReceiver
          (some ((encodeFrame 0 [1, 2]).take 7))).2
          (some ((encodeFrame 0 [1, 2]).drop 7))).1 = RecvOutcome.frame samples ∧
      (receive_frame (receive_frame initReceiver
          (some ((encodeFrame 0 [1, 2]).take 7))).2
          (some ((encodeFrame 0 [1, 2]).drop 7))).2.buffer = [] :=
  C7_split_delivery 0 [1, 2] 7 (by decide) (by decide) (by decide) (by decide) (by decide)

theorem take_add_six_cons (a b c d e f : Nat) (l : List Nat) (m : Nat) :
    List.take (m + 6) (a :: b :: c :: d :: e :: f :: l)
      = a :: b :: c :: d :: e :: f :: List.take m l := rfl

theorem drop_add_six_cons (a b c d e f : Nat) (l : List Nat) (m : Nat) :
    List.drop (m + 6) (a :: b :: c :: d :: e :: f :: l) = List.drop m l := rfl

theorem xor_two_pow_ne (a k : Nat) : a ^^^ 2 ^ k ≠ a := by
  intro h
  have hc := Nat.xor_cancel_left a (2 ^ k)
  rw [h, Nat.xor_self] at hc
  exact absurd hc.symm (pow_ne_zero k (by norm_num))

theorem xor_two_pow_lt (a k : Nat) (ha : a < 256) (hk : k < 8) : a ^^^ 2 ^ k < 256 := by
  have h2 : (2 : Nat) ^ k < 2 ^ 8 := Nat.pow_lt_pow_right (by norm_num) hk
  have := Nat.xor_lt_two_pow (n := 8) (by simpa using ha) (by simpa using h2)
  simpa using this

theorem checksum_flip_ne (X a k : Nat) (ha : a < 256) (hk : k < 8) :
    (X + (a ^^^ 2 ^ k)) % 65536 ≠ (X + a) % 65536 := by
  intro h
  have h1 : a ^^^ 2 ^ k ≠ a := xor_two_pow_ne a k
  have h2 : a ^^^ 2 ^ k < 256 := xor_two_pow_lt a k ha hk
  omega

theorem receive_frame_corrupt (s : Stats) (a0 a1 l0 l1 c0 c1 : Nat) (mid : List Nat)
    (hl : l0 + 256 * l1 = mid.length)
    (hne : c0 + 256 * c1 ≠ calculate_checksum (85 :: 170 :: a0 :: a1 :: l0 :: l1 :: mid)) :
    receive_frame ⟨85 :: 170 :: a0 :: a1 :: l0 :: l1 :: (mid ++ [c0, c1]), s⟩ none =
      (RecvOutcome.noFrame, ⟨[], { s with checksum_errors := s.checksum_errors + 1 }⟩) := by
  rw [show receive_frame ⟨85 :: 170 :: a0 :: a1 :: l0 :: l1 :: (mid ++ [c0, c1]), s⟩ none
        = receiveCore ⟨85 :: 170 :: a0 :: a1 :: l0 :: l1 :: (mid ++ [c0, c1]), s⟩ from rfl]
  rw [receiveCore_magic, parseFrame_full s _ _ _ _ _ _ mid hl, if_pos hne]

/-- C4 (counterexample): flipping bit 0 of byte 0 (the magic field) of a
well-formed buffered frame makes extraction return nothing via sync loss with
`checksum_errors` still 0 (the claim demands an increment of exactly one);
flipping bit 0 of byte 4 (the length field) makes the decoder wait for more
bytes, again leaving `checksum_errors` at 0. -/
theorem C4_counterexample :
    ((encodeFrame 0 [1, 2]).set 0 (85 ^^^ 2 ^ 0) = [84, 170, 0, 0, 2, 0, 1, 2, 4, 1] ∧
     (receive_frame ⟨(encodeFrame 0 [1, 2]).set 0 (85 ^^^ 2 ^ 0), initStats⟩ none).1
        = RecvOutcome.noFrame ∧
     (receive_frame ⟨(encodeFrame 0 [1, 2]).set 0 (85 ^^^ 2 ^ 0),
        initStats⟩ none).2.stats.checksum_errors = 0) ∧
    ((encodeFrame 0 [1, 2]).set 4 (2 ^^^ 2 ^ 0) = [85, 170, 0, 0, 3, 0, 1, 2, 4, 1] ∧
     (receive_frame ⟨(encodeFrame 0 [1, 2]).set 4 (2 ^^^ 2 ^ 0), initStats⟩ none).1
        = RecvOutcome.noFrame ∧
     (receive_frame ⟨(encodeFrame 0 [1, 2]).set 4 (2 ^^^ 2 ^ 0),
        initStats⟩ none).2.stats.checksum_errors = 0) :=
  ⟨⟨rfl, rfl, rfl⟩, ⟨rfl, rfl, rfl⟩⟩

/-- C4 (amended): flipping any single bit of a byte in the seq field or in the
payload of a well-formed frame in the backlog makes extraction return nothing,
increments `checksum_errors` by exactly one, and leaves `last_seq` (and every
other statistic) unchanged.  Bits of the magic or length fields instead derail
sync or frame-size computation without a checksum error (see the
counterexample), so they are excluded here. -/
theorem C4_bitflip_checksum (s : Stats) (seq : Nat) (payload : List Nat)
    (pre post : List Nat) (b k : Nat)
    (hk : k < 8) (hs : seq < 65536) (hlen : payload.length < 65536)
    (hbytes : ∀ x ∈ payload, x < 256)
    (hsplit : encodeFrame seq payload = pre ++ b :: post)
    (hpos : pre.length = 2 ∨ pre.length = 3 ∨
      (6 ≤ pre.length ∧ pre.length < 6 + payload.length)) :
    receive_frame ⟨pre ++ (b ^^^ 2 ^ k) :: post, s⟩ none =
      (RecvOutcome.noFrame, ⟨[], { s with checksum_errors := s.checksum_errors + 1 }⟩) := by
  have hcsum : frameChecksum seq payload % 256
      + 256 * (frameChecksum seq payload / 256 % 256) = frameChecksum seq payload :=
    unle16_le16 (frameChecksum_lt seq payload)
  have hs0 : seq % 256 < 256 := Nat.mod_lt _ (by norm_num)
  have hs1 : seq / 256 % 256 < 256 := Nat.mod_lt _ (by norm_num)
  rcases hpos with h2 | h3 | ⟨h6, hltp⟩
  · -- the flipped byte is the low seq byte
    obtain ⟨p0, p1, rfl⟩ : ∃ p0 p1, pre = [p0, p1] := by
      cases pre with
      | nil => simp only [List.length_nil] at h2; omega
      | cons p0 t =>
        cases t with
        | nil => simp only [List.length_cons, List.length_nil] at h2; omega
        | cons p1 t2 =>
          cases t2 with
          | nil => exact ⟨p0, p1, rfl⟩
          | cons q t3 => simp only [List.length_cons] at h2; omega
    rw [encodeFrame_eq] at hsplit
    simp only [List.cons_append, List.nil_append, List.cons.injEq] at hsplit
    obtain ⟨h85, h170, hbv, hrest⟩ := hsplit
    subst h85; subst h170; subst hbv; subst hrest
    simp only [List.cons_append, List.nil_append]
    refine receive_frame_corrupt s _ _ _ _ _ _ payload (unle16_le16 hlen) ?_
    have e1 : frameChecksum seq payload
        = ((85 + 170 + seq / 256 % 256 + payload.length % 256
            + payload.length / 256 % 256 + payload.sum) + seq % 256) % 65536 := by
      unfold frameChecksum calculate_checksum
      simp only [List.sum_cons]
      congr 1
      omega
    have e2 : calculate_checksum (85 :: 170 :: (seq % 256 ^^^ 2 ^ k) :: seq / 256 % 256 ::
          payload.length % 256 :: payload.length / 256 % 256 :: payload)
        = ((85 + 170 + seq / 256 % 256 + payload.length % 256
            + payload.length / 256 % 256 + payload.sum) + (seq % 256 ^^^ 2 ^ k)) % 65536 := by
      unfold calculate_checksum
      simp only [List.sum_cons]
      congr 1
      omega
    rw [hcsum, e1, e2]
    exact (checksum_flip_ne _ (seq % 256) k hs0 hk).symm
  · -- the flipped byte is the high seq byte
    obtain ⟨p0, p1, p2, rfl⟩ : ∃ p0 p1 p2, pre = [p0, p1, p2] := by
      cases pre with
      | nil => simp only [List.length_nil] at h3; omega
      | cons p0 t =>
        cases t with
        | nil => simp only [List.length_cons, List.length_nil] at h3; omega
        | cons p1 t2 =>
          cases t2 with
          | nil => simp only [List.length_cons, List.length_nil] at h3; omega
          | cons p2 t3 =>
            cases t3 with
            | nil => exact ⟨p0, p1, p2, rfl⟩
            | cons q t4 => simp only [List.length_cons] at h3; omega
    rw [encodeFrame_eq] at hsplit
    simp only [List.cons_append, List.nil_append, List.cons.injEq] at hsplit
    obtain ⟨h85, h170, hsq, hbv, hrest⟩ := hsplit
    subst h85; subst h170; subst hsq; subst hbv; subst hrest
    simp only [List.cons_append, List.nil_append]
    refine receive_frame_corrupt s _ _ _ _ _ _ payload (unle16_le16 hlen) ?_
    have e1 : frameChecksum seq payload
        = ((85 + 170 + seq % 256 + payload.length % 256
            + payload.length / 256 % 256 + payload.sum) + seq / 256 % 256) % 65536 := by
      unfold frameChecksum calculate_checksum
      simp only [List.sum_cons]
      congr 1
      omega
    have e2 : calculate_checksum (85 :: 170 :: seq % 256 :: (seq / 256 % 256 ^^^ 2 ^ k) ::
          payload.length % 256 :: payload.length / 256 % 256 :: payload)
        = ((85 + 170 + seq % 256 + payload.length % 256
            + payload.length / 256 % 256 + payload.sum) + (seq / 256 % 256 ^^^ 2 ^ k)) % 65536 := by
      unfold calculate_checksum
      simp only [List.sum_cons]
      congr 1
      omega
    rw [hcsum, e1, e2]
    exact (checksum_flip_ne _ (seq / 256 % 256) k hs1 hk).symm
  · -- the flipped byte is a payload byte
    obtain ⟨j, hplen⟩ : ∃ j, pre.length = 6 + j := ⟨pre.length - 6, by omega⟩
    have hjlt : j < payload.length := by omega
    have hpre : pre = (encodeFrame seq payload).take pre.length := by
      rw [hsplit, List.take_left]
    have hpost : b :: post = (encodeFrame seq payload).drop pre.length := by
      rw [hsplit, List.drop_left]
    rw [hplen, encodeFrame_eq, show (6 : Nat) + j = j + 6 from by omega,
        drop_add_six_cons, List.drop_append_eq_append_drop,
        show j - payload.length = 0 from by omega, List.drop_zero,
        List.drop_eq_getElem_cons hjlt] at hpost
    simp only [List.cons_append] at hpost
    rw [hplen, encodeFrame_eq, show (6 : Nat) + j = j + 6 from by omega,
        take_add_six_cons, List.take_append_eq_append_take,
        show j - payload.length = 0 from by omega, List.take_zero,
        List.append_nil] at hpre
    injection hpost with hbv hpostEq
    subst hbv; subst hpostEq; subst hpre
    simp only [List.cons_append]
    rw [show (payload[j] ^^^ 2 ^ k) ::
          (List.drop (j + 1) payload ++ [frameChecksum seq payload % 256,
            frameChecksum seq payload / 256 % 256])
        = ((payload[j] ^^^ 2 ^ k) :: List.drop (j + 1) payload)
            ++ [frameChecksum seq payload % 256,
                frameChecksum seq payload / 256 % 256] from rfl,
        ← List.append_assoc]
    refine receive_frame_corrupt s _ _ _ _ _ _
      (List.take j payload ++ (payload[j] ^^^ 2 ^ k) :: List.drop (j + 1) payload) ?_ ?_
    · have := unle16_le16 hlen
      simp only [List.length_append, List.length_cons, List.length_take, List.length_drop]
      omega
    · have hTD := List.sum_take_add_sum_drop payload j
      have hD : (payload.drop j).sum = payload[j] + (payload.drop (j + 1)).sum := by
        rw [List.drop_eq_getElem_cons hjlt, List.sum_cons]
      have hpj : payload[j] < 256 := hbytes _ (List.getElem_mem hjlt)
      have e1 : frameChecksum seq payload
          = ((85 + 170 + seq % 256 + seq / 256 % 256 + payload.length % 256
              + payload.length / 256 % 256 + (payload.take j).sum
              + (payload.drop (j + 1)).sum) + payload[j]) % 65536 := by
        unfold frameChecksum calculate_checksum
        simp only [List.sum_cons]
        congr 1
        omega
      have e2 : calculate_checksum (85 :: 170 :: seq % 256 :: seq / 256 % 256 ::
            payload.length % 256 :: payload.length / 256 % 256 ::
            (List.take j payload ++ (payload[j] ^^^ 2 ^ k) :: List.drop (j + 1) payload))
          = ((85 + 170 + seq % 256 + seq / 256 % 256 + payload.length % 256
              + payload.length / 256 % 256 + (payload.take j).sum
              + (payload.drop (j + 1)).sum) + (payload[j] ^^^ 2 ^ k)) % 65536 := by
        unfold calculate_checksum
        simp only [List.sum_cons, List.sum_append]
        congr 1
        omega
      rw [hcsum, e1, e2]
      exact (checksum_flip_ne _ (payload[j]) k hpj hk).symm

/-- Closed witness for C4 (amended): flipping bit 0 of the low seq byte of the
frame for seq 0, payload `[1, 2]`. -/
theorem C4_witness :
    receive_frame ⟨[85, 170] ++ (0 ^^^ 2 ^ 0) :: [0, 2, 0, 1, 2, 4, 1], initStats⟩ none =
      (RecvOutcome.noFrame,
       ⟨[], { initStats with checksum_errors := initStats.checksum_errors + 1 }⟩) :=
  C4_bitflip_checksum initStats 0 [1, 2] [85, 170] [0, 2, 0, 1, 2, 4, 1] 0 0
    (by decide) (by decide) (by decide) (by decide) (by decide) (by decide)

end UsbAudio
